import Mathlib

set_option maxHeartbeats 1000000
set_option maxRecDepth 100000

/-!
Shallow embedding of the property-ledger blockchain implemented in
`src/js/app.js`.

The in-browser program keeps a global array `blockchain` of block objects;
here state is passed explicitly as a `List Block`.  The SHA-256 primitive
(`crypto.subtle.digest` wrapped by the JS `sha256` helper) is an external
cryptographic routine, so the development is parametric in a function
`sha256 : String → String`; where the spec relies on collision resistance a
theorem assumes injectivity of that function.  `mockHash` is a concrete
injective instance used to evaluate theorems on concrete inputs.
Timestamps (`new Date().toISOString()`) are nondeterministic inputs and are
passed as explicit arguments.
-/

/-- Payload supplied by the caller to `addBlock` (the object literals built by
the register/transfer click handlers): `propertyID`, `owner`, `action`, and
optionally `description` (Register) or `remarks` (Transfer).  Absent JS
properties are modelled as `none`. -/
structure Record where
  propertyID : String
  owner : String
  action : String
  description : Option String
  remarks : Option String
deriving DecidableEq, Repr

/-- A block as stored on the chain: the record payload plus the chain
metadata set by `addBlock` (`timestamp`, `previousHash`, `signature`,
`currentHash`). -/
structure Block where
  propertyID : String
  owner : String
  action : String
  description : Option String
  remarks : Option String
  timestamp : String
  previousHash : String
  signature : String
  currentHash : String
deriving DecidableEq, Repr

/-- The `dataForHash` object built inside `calculateHash`: exactly the seven
hash-relevant fields, with `description` and `remarks` defaulted to the empty
string (JS `record.description || ''`). -/
structure DataForHash where
  propertyID : String
  owner : String
  description : String
  remarks : String
  action : String
  timestamp : String
  previousHash : String
deriving DecidableEq, Repr

/-- The `dataForHash` object computed from a block, field for field as in
`calculateHash` of `app.js`. -/
def dataForHash (record : Block) : DataForHash :=
  { propertyID := record.propertyID
    owner := record.owner
    description := record.description.getD ""
    remarks := record.remarks.getD ""
    action := record.action
    timestamp := record.timestamp
    previousHash := record.previousHash }

/-- JSON string escaping of one character, as performed by `JSON.stringify`
on string values: quote and backslash get a backslash escape, the named
control characters get their short escapes, the remaining control characters
(code points below 0x20) get a `\u00XX` escape, and every other character is
emitted verbatim. -/
def escChar (c : Char) : List Char :=
  if c = '"' then ['\\', '"']
  else if c = '\\' then ['\\', '\\']
  else if c = '\x08' then ['\\', 'b']
  else if c = '\x09' then ['\\', 't']
  else if c = '\x0a' then ['\\', 'n']
  else if c = '\x0c' then ['\\', 'f']
  else if c = '\x0d' then ['\\', 'r']
  else if c.toNat < 32 then
    ['\\', 'u', '0', '0', Nat.digitChar (c.toNat / 16), Nat.digitChar (c.toNat % 16)]
  else [c]

/-- JSON escaping of a whole string (as a character list). -/
def escStr : List Char → List Char
  | [] => []
  | c :: rest => escChar c ++ escStr rest

/-- Literal chunk of `JSON.stringify` output before the `propertyID` value. -/
def jkeyPropertyID : List Char := "\x7b\"propertyID\":\"".data

/-- Literal chunk between the `propertyID` value's closing quote and the
`owner` value. -/
def jkeyOwner : List Char := ",\"owner\":\"".data

/-- Literal chunk before the `description` value. -/
def jkeyDescription : List Char := ",\"description\":\"".data

/-- Literal chunk before the `remarks` value. -/
def jkeyRemarks : List Char := ",\"remarks\":\"".data

/-- Literal chunk before the `action` value. -/
def jkeyAction : List Char := ",\"action\":\"".data

/-- Literal chunk before the `timestamp` value. -/
def jkeyTimestamp : List Char := ",\"timestamp\":\"".data

/-- Literal chunk before the `previousHash` value. -/
def jkeyPreviousHash : List Char := ",\"previousHash\":\"".data

/-- Closing brace of the stringified object. -/
def jClose : List Char := ['\x7d']

/-- Character-level output of `JSON.stringify(dataForHash)`: the seven
string-valued fields in the insertion order of the object literal in
`calculateHash`, with JSON string escaping of the values. -/
def encData (d : DataForHash) : List Char :=
  jkeyPropertyID ++ escStr d.propertyID.data ++ '"' ::
    (jkeyOwner ++ escStr d.owner.data ++ '"' ::
      (jkeyDescription ++ escStr d.description.data ++ '"' ::
        (jkeyRemarks ++ escStr d.remarks.data ++ '"' ::
          (jkeyAction ++ escStr d.action.data ++ '"' ::
            (jkeyTimestamp ++ escStr d.timestamp.data ++ '"' ::
              (jkeyPreviousHash ++ escStr d.previousHash.data ++ '"' :: jClose))))))

/-- `JSON.stringify` of the `dataForHash` object, as a string. -/
def jsonStringifyData (d : DataForHash) : String :=
  String.mk (encData d)

/-- `calculateHash(record)`: hash of the stringified `dataForHash` object.
The `signature` and `currentHash` fields of the block play no part. -/
def calculateHash (sha256 : String → String) (record : Block) : String :=
  sha256 (jsonStringifyData (dataForHash record))

/-- `signRecord(record, userSecret)`: keyed digest of
`propertyID|owner|action|timestamp|userSecret`. -/
def signRecord (sha256 : String → String) (record : Block) (userSecret : String) : String :=
  sha256 (record.propertyID ++ "|" ++ record.owner ++ "|" ++ record.action ++ "|"
    ++ record.timestamp ++ "|" ++ userSecret)

/-- The block built by `addBlock` once `previousHash` is known: the JS code
mutates the record in place, setting `previousHash`, `timestamp`, then
`signature` (computed before `currentHash` exists) and finally
`currentHash` (computed over a record whose `signature` is already set, but
`calculateHash` does not read it). -/
def mkBlock (sha256 : String → String) (previousHash : String) (record : Record)
    (userSecret timestamp : String) : Block :=
  let b0 : Block :=
    { propertyID := record.propertyID
      owner := record.owner
      action := record.action
      description := record.description
      remarks := record.remarks
      timestamp := timestamp
      previousHash := previousHash
      signature := ""
      currentHash := "" }
  let b1 : Block := { b0 with signature := signRecord sha256 b0 userSecret }
  { b1 with currentHash := calculateHash sha256 b1 }

/-- `addBlock(record, userSecret)`: links the new block to the tail block's
`currentHash` (sentinel `"0"` on an empty chain), stamps the supplied
timestamp, signs, hashes, and pushes. -/
def addBlock (sha256 : String → String) (blockchain : List Block) (record : Record)
    (userSecret timestamp : String) : List Block :=
  let previousHash :=
    match blockchain.getLast? with
    | some lastBlock => lastBlock.currentHash
    | none => "0"
  blockchain ++ [mkBlock sha256 previousHash record userSecret timestamp]

/-- Result of `validateChain`, one constructor per distinct return string of
the JS function.  Indices are 0-based loop indices; the JS messages display
`i + 1`. -/
inductive ValidationResult where
  | empty
  | valid
  | hashMismatch (i : Nat)
  | brokenLink (i : Nat)
  | signatureInvalid (i : Nat)
deriving DecidableEq, Repr

/-- The link test of the validator loop body: at index `i > 0` the stored
`previousHash` must equal the predecessor's stored `currentHash`; at index 0
(no predecessor yet, modelled as `none`) the test is skipped. -/
def linkBroken : Option String → Block → Bool
  | some ph, current => decide (current.previousHash ≠ ph)
  | none, _ => false

/-- Body of the `for` loop of `validateChain`: per block, hash check first,
then link check, then signature check; recurse carrying the current block's
stored `currentHash` as the predecessor hash for the next index. -/
def checkBlocks (sha256 : String → String) (globalSecret : String) :
    Option String → Nat → List Block → ValidationResult
  | _, _, [] => .valid
  | prevHash, i, current :: rest =>
    if calculateHash sha256 current ≠ current.currentHash then .hashMismatch i
    else if linkBroken prevHash current then .brokenLink i
    else if signRecord sha256 current globalSecret ≠ current.signature then .signatureInvalid i
    else checkBlocks sha256 globalSecret (some current.currentHash) (i + 1) rest

/-- `validateChain(globalSecret)`: empty-chain result on a zero-length chain,
otherwise the first failure of the scan, or the valid result. -/
def validateChain (sha256 : String → String) (blockchain : List Block)
    (globalSecret : String) : ValidationResult :=
  if blockchain.length = 0 then .empty
  else checkBlocks sha256 globalSecret none 0 blockchain

/-- One `addBlock` call: the record together with the timestamp the clock
produced for it. -/
structure Entry where
  record : Record
  timestamp : String
deriving DecidableEq, Repr

/-- A chain built purely by successive `addBlock` calls under one secret,
starting from the empty chain. -/
def buildChain (sha256 : String → String) (userSecret : String)
    (entries : List Entry) : List Block :=
  entries.foldl (fun chain e => addBlock sha256 chain e.record userSecret e.timestamp) []

/-- One `addBlock` call together with the secret supplied for it. -/
structure SignedEntry where
  record : Record
  userSecret : String
  timestamp : String
deriving DecidableEq, Repr

/-- A chain built purely by successive `addBlock` calls, each under its own
secret. -/
def buildChainMulti (sha256 : String → String) (entries : List SignedEntry) : List Block :=
  entries.foldl (fun chain e => addBlock sha256 chain e.record e.userSecret e.timestamp) []

/-- `showTimeline`'s data selection: the blocks whose `propertyID` matches,
in chain order. -/
def showTimeline (blockchain : List Block) (propertyID : String) : List Block :=
  blockchain.filter (fun b => b.propertyID = propertyID)

/-- `updateStats`: count of distinct propertyIDs with a Register block, count
of Transfer blocks, count of distinct owners (the three Sets/counters of the
JS function). -/
def updateStats (blockchain : List Block) : Nat × Nat × Nat :=
  (((blockchain.filter (fun b => b.action = "Register")).map (fun b => b.propertyID)).dedup.length,
   (blockchain.filter (fun b => b.action = "Transfer")).length,
   (blockchain.map (fun b => b.owner)).dedup.length)

/-- Concrete injective stand-in for the external SHA-256 primitive, used to
evaluate the parametric theorems on concrete inputs. -/
def mockHash (s : String) : String := "#" ++ s

/-- A parsed JSON value (what `JSON.parse` hands back / what
`JSON.stringify` consumes).  The string-level parser/printer is the
browser's, external to `app.js`; the transport is modelled at this value
level. -/
inductive Json where
  | null
  | bool (b : Bool)
  | num (n : Int)
  | str (s : String)
  | arr (elems : List Json)
  | obj (fields : List (String × Json))

/-- JSON serialization of an optional string property: `JSON.stringify`
omits properties holding `undefined`. -/
def optField (name : String) : Option String → List (String × Json)
  | some s => [(name, Json.str s)]
  | none => []

/-- The JSON object `JSON.stringify` produces for one block: every present
field as a string member (optional `description`/`remarks` omitted when
absent). -/
def blockToJson (b : Block) : Json :=
  Json.obj ([("propertyID", Json.str b.propertyID)] ++ optField "description" b.description ++
    [("owner", Json.str b.owner), ("action", Json.str b.action)] ++
    optField "remarks" b.remarks ++
    [("previousHash", Json.str b.previousHash), ("timestamp", Json.str b.timestamp),
     ("signature", Json.str b.signature), ("currentHash", Json.str b.currentHash)])

/-- The JSON payload of `downloadLedger`: the array of block objects
(`JSON.stringify(blockchain, null, 2)` up to whitespace, which JSON parsing
discards). -/
def downloadLedger (blockchain : List Block) : Json :=
  Json.arr (blockchain.map blockToJson)

/-- String member lookup in a parsed JSON object, as the JS code reads block
fields off imported objects. -/
def getStr (fields : List (String × Json)) (name : String) : Option String :=
  match fields.find? (fun f => f.1 = name) with
  | some (_, Json.str s) => some s
  | _ => none

/-- Reading one imported JSON object back as a block: the structural view
the rest of the program (renderer, validator, stats) takes of an element of
the installed array. -/
def jsonToBlock : Json → Option Block
  | Json.obj fields =>
    match getStr fields "propertyID", getStr fields "owner", getStr fields "action",
        getStr fields "timestamp", getStr fields "previousHash",
        getStr fields "signature", getStr fields "currentHash" with
    | some propertyID, some owner, some action, some timestamp, some previousHash,
        some signature, some currentHash =>
      some { propertyID := propertyID, owner := owner, action := action,
             description := getStr fields "description", remarks := getStr fields "remarks",
             timestamp := timestamp, previousHash := previousHash,
             signature := signature, currentHash := currentHash }
    | _, _, _, _, _, _, _ => none
  | _ => none

/-- Deserializing a whole exported payload back into a chain of blocks. -/
def jsonToChain : Json → Option (List Block)
  | Json.arr elems => elems.mapM jsonToBlock
  | _ => none

/-- Outcome of `loadLedgerFromFile`, one constructor per distinct UI message:
success, the non-array alert, and the `catch` (parse failure) alert. -/
inductive ImportOutcome where
  | loaded
  | invalidFormat
  | readError
deriving DecidableEq, Repr

/-- `loadLedgerFromFile`: `JSON.parse` failure (modelled as `none`) is caught
and reported, leaving the chain untouched; a parsed non-array is rejected,
leaving the chain untouched; a parsed array is installed wholesale
(`blockchain = parsed`), with no per-element validation. -/
def loadLedgerFromFile (parsed : Option Json) (blockchain : List Json) :
    List Json × ImportOutcome :=
  match parsed with
  | none => (blockchain, .readError)
  | some (Json.arr elems) => (elems, .loaded)
  | some _ => (blockchain, .invalidFormat)


/-! Injectivity of the canonical encoding.  A decoder for the JSON string
escaping is exhibited as a left inverse, which makes the escaped value
recoverable from the encoded object, field by field. -/

/-- Value of a lowercase hexadecimal digit character (left inverse of
`Nat.digitChar` on `0..15`). -/
def hexVal (c : Char) : Nat :=
  if c = '0' then 0 else if c = '1' then 1 else if c = '2' then 2 else if c = '3' then 3
  else if c = '4' then 4 else if c = '5' then 5 else if c = '6' then 6 else if c = '7' then 7
  else if c = '8' then 8 else if c = '9' then 9 else if c = 'a' then 10 else if c = 'b' then 11
  else if c = 'c' then 12 else if c = 'd' then 13 else if c = 'e' then 14 else 15

/-- Decoder for one JSON-escaped string value: reads characters up to the
closing (unescaped) quote, undoing `escChar`, and returns the decoded value
together with the rest of the input. -/
def descape : List Char → Option (List Char × List Char)
  | [] => none
  | c :: rest =>
    if c = '"' then some ([], rest)
    else if c = '\\' then
      match rest with
      | [] => none
      | e :: rest2 =>
        if e = '"' then (descape rest2).map (fun p => ('"' :: p.1, p.2))
        else if e = '\\' then (descape rest2).map (fun p => ('\\' :: p.1, p.2))
        else if e = 'b' then (descape rest2).map (fun p => ('\x08' :: p.1, p.2))
        else if e = 't' then (descape rest2).map (fun p => ('\x09' :: p.1, p.2))
        else if e = 'n' then (descape rest2).map (fun p => ('\x0a' :: p.1, p.2))
        else if e = 'f' then (descape rest2).map (fun p => ('\x0c' :: p.1, p.2))
        else if e = 'r' then (descape rest2).map (fun p => ('\x0d' :: p.1, p.2))
        else if e = 'u' then
          match rest2 with
          | h1 :: h2 :: h3 :: h4 :: rest3 =>
            (descape rest3).map (fun p =>
              (Char.ofNat (hexVal h1 * 4096 + hexVal h2 * 256 + hexVal h3 * 16 + hexVal h4)
                :: p.1, p.2))
          | _ => none
        else none
    else (descape rest).map (fun p => (c :: p.1, p.2))

theorem hexVal_digitChar : ∀ m : Nat, m < 16 → hexVal (Nat.digitChar m) = m := by decide

theorem descape_plain (c : Char) (x : List Char) (h1 : c ≠ '"') (h2 : c ≠ '\\') :
    descape (c :: x) = (descape x).map (fun p => (c :: p.1, p.2)) := by
  rw [descape.eq_def]; simp [h1, h2]

theorem descape_u (d1 d2 : Char) (x : List Char) :
    descape ('\\' :: 'u' :: '0' :: '0' :: d1 :: d2 :: x)
      = (descape x).map (fun p => (Char.ofNat (hexVal d1 * 16 + hexVal d2) :: p.1, p.2)) := by
  rw [descape.eq_def]; simp [hexVal]

theorem descape_escStr : ∀ (s rest : List Char),
    descape (escStr s ++ '"' :: rest) = some (s, rest)
  | [], rest => by
    show descape ([] ++ '"' :: rest) = some ([], rest)
    rw [List.nil_append, descape.eq_def]; simp
  | c :: t, rest => by
    have ih := descape_escStr t rest
    show descape ((escChar c ++ escStr t) ++ '"' :: rest) = some (c :: t, rest)
    rw [List.append_assoc]
    by_cases h1 : c = '"'
    · subst h1
      show descape ('\\' :: '"' :: (escStr t ++ '"' :: rest)) = _
      rw [descape.eq_def]; simp [ih]
    by_cases h2 : c = '\\'
    · subst h2
      show descape ('\\' :: '\\' :: (escStr t ++ '"' :: rest)) = _
      rw [descape.eq_def]; simp [ih]
    by_cases h3 : c = '\x08'
    · subst h3
      show descape ('\\' :: 'b' :: (escStr t ++ '"' :: rest)) = _
      rw [descape.eq_def]; simp [ih]
    by_cases h4 : c = '\x09'
    · subst h4
      show descape ('\\' :: 't' :: (escStr t ++ '"' :: rest)) = _
      rw [descape.eq_def]; simp [ih]
    by_cases h5 : c = '\x0a'
    · subst h5
      show descape ('\\' :: 'n' :: (escStr t ++ '"' :: rest)) = _
      rw [descape.eq_def]; simp [ih]
    by_cases h6 : c = '\x0c'
    · subst h6
      show descape ('\\' :: 'f' :: (escStr t ++ '"' :: rest)) = _
      rw [descape.eq_def]; simp [ih]
    by_cases h7 : c = '\x0d'
    · subst h7
      show descape ('\\' :: 'r' :: (escStr t ++ '"' :: rest)) = _
      rw [descape.eq_def]; simp [ih]
    by_cases h8 : c.toNat < 32
    · have hesc : escChar c
          = ['\\', 'u', '0', '0', Nat.digitChar (c.toNat / 16), Nat.digitChar (c.toNat % 16)] := by
        simp [escChar, h1, h2, h3, h4, h5, h6, h7, h8]
      rw [hesc]
      show descape ('\\' :: 'u' :: '0' :: '0' :: Nat.digitChar (c.toNat / 16)
          :: Nat.digitChar (c.toNat % 16) :: (escStr t ++ '"' :: rest)) = _
      rw [descape_u, ih]
      have hd1 : hexVal (Nat.digitChar (c.toNat / 16)) = c.toNat / 16 :=
        hexVal_digitChar _ (by omega)
      have hd2 : hexVal (Nat.digitChar (c.toNat % 16)) = c.toNat % 16 :=
        hexVal_digitChar _ (by omega)
      have hsum : hexVal (Nat.digitChar (c.toNat / 16)) * 16
          + hexVal (Nat.digitChar (c.toNat % 16)) = c.toNat := by
        rw [hd1, hd2]; omega
      rw [hsum, Char.ofNat_toNat]; rfl
    · have hesc : escChar c = [c] := by
        simp [escChar, h1, h2, h3, h4, h5, h6, h7, h8]
      rw [hesc]
      show descape (c :: (escStr t ++ '"' :: rest)) = _
      rw [descape_plain c _ h1 h2, ih]; rfl

/-- Two escaped values followed by a closing quote can only be equal
segment-wise: the escaping is uniquely decodable. -/
theorem escStr_sep {s1 s2 t1 t2 : List Char}
    (h : escStr s1 ++ '"' :: t1 = escStr s2 ++ '"' :: t2) : s1 = s2 ∧ t1 = t2 := by
  have h1 := descape_escStr s1 t1
  rw [h, descape_escStr s2 t2] at h1
  simp only [Option.some.injEq, Prod.mk.injEq] at h1
  exact ⟨h1.1.symm, h1.2.symm⟩

theorem string_of_data_eq {s t : String} (h : s.data = t.data) : s = t :=
  congrArg String.mk h

/-- The canonical encoding is injective: field-wise different defaulted
content produces different `JSON.stringify` output. -/
theorem encData_inj {d1 d2 : DataForHash} (h : encData d1 = encData d2) : d1 = d2 := by
  obtain ⟨p1, o1, de1, r1, a1, t1, ph1⟩ := d1
  obtain ⟨p2, o2, de2, r2, a2, t2, ph2⟩ := d2
  simp only [encData, List.append_assoc] at h
  obtain ⟨hp, h⟩ := escStr_sep (List.append_cancel_left h)
  obtain ⟨ho, h⟩ := escStr_sep (List.append_cancel_left h)
  obtain ⟨hd, h⟩ := escStr_sep (List.append_cancel_left h)
  obtain ⟨hr, h⟩ := escStr_sep (List.append_cancel_left h)
  obtain ⟨ha, h⟩ := escStr_sep (List.append_cancel_left h)
  obtain ⟨ht, h⟩ := escStr_sep (List.append_cancel_left h)
  obtain ⟨hph, _⟩ := escStr_sep (List.append_cancel_left h)
  cases string_of_data_eq hp
  cases string_of_data_eq ho
  cases string_of_data_eq hd
  cases string_of_data_eq hr
  cases string_of_data_eq ha
  cases string_of_data_eq ht
  cases string_of_data_eq hph
  rfl

/-- `jsonStringifyData` is injective on defaulted hash content. -/
theorem jsonStringifyData_inj {d1 d2 : DataForHash}
    (h : jsonStringifyData d1 = jsonStringifyData d2) : d1 = d2 :=
  encData_inj (congrArg String.data h)

/-! Chain invariants established by `addBlock` and consumed by
`validateChain`. -/

/-- The stored `previousHash` links: the first block of the list carries
`ph`, every later block carries its predecessor's stored `currentHash`. -/
def linkedSent (ph : String) : List Block → Prop
  | [] => True
  | b :: rest => b.previousHash = ph ∧ linkedSent b.currentHash rest

/-- Stored `currentHash` of the last block of the list, `ph` if empty. -/
def lastHash (ph : String) : List Block → String
  | [] => ph
  | b :: rest => lastHash b.currentHash rest

/-- Hash accumulator threaded by the validator loop: `none` before the first
block, afterwards the previous block's stored `currentHash`. -/
def tailH : Option String → List Block → Option String
  | phOpt, [] => phOpt
  | _, b :: rest => tailH (some b.currentHash) rest

/-- All link checks of the validator succeed along the list, starting from
accumulator `phOpt`. -/
def linkMatch : Option String → List Block → Prop
  | _, [] => True
  | phOpt, b :: rest =>
    (∀ ph, phOpt = some ph → b.previousHash = ph) ∧ linkMatch (some b.currentHash) rest

/-- Blocks paired with the secrets they were signed with. -/
def signedWith (sha256 : String → String) : List Block → List String → Prop
  | [], [] => True
  | b :: c, sec :: secs => signRecord sha256 b sec = b.signature ∧ signedWith sha256 c secs
  | _, _ => False

theorem getLastD_eq_lastHash :
    ∀ (c : List Block) (d : String),
      (match c.getLast? with
       | some lastBlock => lastBlock.currentHash
       | none => d) = lastHash d c := by
  intro c
  induction c with
  | nil => intro d; rfl
  | cons b t ih =>
    intro d
    cases t with
    | nil => rfl
    | cons b2 t2 =>
      have h1 := ih b.currentHash
      rw [List.getLast?_cons_cons]
      cases hgl : (b2 :: t2).getLast? with
      | none => exact absurd hgl (by simp)
      | some bl => rw [hgl] at h1; simpa [lastHash] using h1

theorem addBlock_eq (sha256 : String → String) (c : List Block) (r : Record)
    (userSecret ts : String) :
    addBlock sha256 c r userSecret ts = c ++ [mkBlock sha256 (lastHash "0" c) r userSecret ts] := by
  rw [addBlock, getLastD_eq_lastHash]

theorem mkBlock_hashOK (sha256 : String → String) (ph : String) (r : Record)
    (userSecret ts : String) :
    calculateHash sha256 (mkBlock sha256 ph r userSecret ts)
      = (mkBlock sha256 ph r userSecret ts).currentHash := rfl

theorem mkBlock_sigOK (sha256 : String → String) (ph : String) (r : Record)
    (userSecret ts : String) :
    signRecord sha256 (mkBlock sha256 ph r userSecret ts) userSecret
      = (mkBlock sha256 ph r userSecret ts).signature := rfl

theorem mkBlock_previousHash (sha256 : String → String) (ph : String) (r : Record)
    (userSecret ts : String) :
    (mkBlock sha256 ph r userSecret ts).previousHash = ph := rfl

theorem tailH_some : ∀ (t : List Block) (ph : String),
    tailH (some ph) t = some (lastHash ph t) := by
  intro t
  induction t with
  | nil => intro ph; rfl
  | cons b t2 ih => intro ph; simpa [tailH, lastHash] using ih b.currentHash

theorem linkedSent_append {c1 c2 : List Block} :
    ∀ {ph : String}, linkedSent ph (c1 ++ c2) ↔
      linkedSent ph c1 ∧ linkedSent (lastHash ph c1) c2 := by
  induction c1 with
  | nil => intro ph; simp [linkedSent, lastHash]
  | cons b t ih => intro ph; simp [linkedSent, lastHash, ih, and_assoc]

theorem linkMatch_of_linkedSent :
    ∀ (c : List Block) (ph : String), linkedSent ph c →
      ∀ phOpt : Option String, (phOpt = none ∨ phOpt = some ph) → linkMatch phOpt c := by
  intro c
  induction c with
  | nil => intro ph _ phOpt _; trivial
  | cons b t ih =>
    intro ph hls phOpt hOpt
    obtain ⟨hb, ht⟩ := hls
    refine ⟨?_, ih b.currentHash ht _ (Or.inr rfl)⟩
    intro ph2 hph2
    rcases hOpt with hnone | hsome
    · rw [hnone] at hph2; exact absurd hph2 (by simp)
    · rw [hsome] at hph2; injection hph2 with h2; rw [hb, h2]

/-- The validator loop walks past a passing prefix: on `c1 ++ c2`, if every
block of `c1` passes the hash, link and signature checks, the scan continues
on `c2` with the accumulated index and predecessor hash. -/
theorem checkBlocks_append (sha256 : String → String) (s : String) :
    ∀ (c1 : List Block) (phOpt : Option String) (i : Nat) (c2 : List Block),
      (∀ b ∈ c1, calculateHash sha256 b = b.currentHash) →
      (∀ b ∈ c1, signRecord sha256 b s = b.signature) →
      linkMatch phOpt c1 →
      checkBlocks sha256 s phOpt i (c1 ++ c2)
        = checkBlocks sha256 s (tailH phOpt c1) (i + c1.length) c2 := by
  intro c1
  induction c1 with
  | nil => intro phOpt i c2 _ _ _; simp [tailH]
  | cons b t ih =>
    intro phOpt i c2 hh hs hl
    have hb := hh b (by simp)
    have hbs := hs b (by simp)
    obtain ⟨hl1, hl2⟩ := hl
    show checkBlocks sha256 s phOpt i (b :: (t ++ c2)) = _
    rw [checkBlocks]
    rw [if_neg (fun hne => hne hb)]
    have hlb : linkBroken phOpt b = false := by
      cases phOpt with
      | none => rfl
      | some ph => simp [linkBroken, hl1 ph rfl]
    rw [hlb]
    simp only [Bool.false_eq_true, if_false]
    rw [if_neg (fun hne => hne hbs)]
    rw [ih (some b.currentHash) (i + 1) c2 (fun b2 hb2 => hh b2 (by simp [hb2]))
      (fun b2 hb2 => hs b2 (by simp [hb2])) hl2]
    have : i + 1 + t.length = i + (b :: t).length := by simp; omega
    rw [this]
    rfl

/-- A chain all of whose blocks pass all three checks validates as a whole. -/
theorem checkBlocks_valid (sha256 : String → String) (s : String) (c : List Block)
    (phOpt : Option String) (i : Nat)
    (hh : ∀ b ∈ c, calculateHash sha256 b = b.currentHash)
    (hs : ∀ b ∈ c, signRecord sha256 b s = b.signature)
    (hl : linkMatch phOpt c) :
    checkBlocks sha256 s phOpt i c = .valid := by
  have h := checkBlocks_append sha256 s c phOpt i [] hh hs hl
  rw [List.append_nil] at h
  rw [h]
  rfl

/-! Invariants of chains built purely through `addBlock`. -/

/-- Folding further `addBlock` calls onto an existing chain (the general
shape of which `buildChainMulti` is the empty-start instance). -/
def buildFrom (sha256 : String → String) (c : List Block) (entries : List SignedEntry) :
    List Block :=
  entries.foldl (fun ch e => addBlock sha256 ch e.record e.userSecret e.timestamp) c

theorem buildChainMulti_eq_buildFrom (sha256 : String → String) (entries : List SignedEntry) :
    buildChainMulti sha256 entries = buildFrom sha256 [] entries := rfl

theorem buildChain_eq_buildFrom (sha256 : String → String) (s : String) (entries : List Entry) :
    buildChain sha256 s entries
      = buildFrom sha256 [] (entries.map (fun e => ⟨e.record, s, e.timestamp⟩)) := by
  simp [buildChain, buildFrom, List.foldl_map]

theorem buildFrom_length (sha256 : String → String) :
    ∀ (entries : List SignedEntry) (c : List Block),
      (buildFrom sha256 c entries).length = c.length + entries.length := by
  intro entries
  induction entries with
  | nil => intro c; simp [buildFrom]
  | cons e es ih =>
    intro c
    show (buildFrom sha256 (addBlock sha256 c e.record e.userSecret e.timestamp) es).length = _
    rw [ih, addBlock_eq]
    simp; omega

theorem signedWith_append_one (sha256 : String → String) :
    ∀ (c : List Block) (secs : List String) (b : Block) (sec : String),
      signedWith sha256 c secs → signRecord sha256 b sec = b.signature →
      signedWith sha256 (c ++ [b]) (secs ++ [sec]) := by
  intro c
  induction c with
  | nil =>
    intro secs b sec hsw hb
    cases secs with
    | nil => exact ⟨hb, trivial⟩
    | cons x xs => exact absurd hsw (by simp [signedWith])
  | cons b2 t ih =>
    intro secs b sec hsw hb
    cases secs with
    | nil => exact absurd hsw (by simp [signedWith])
    | cons x xs => exact ⟨hsw.1, ih xs b sec hsw.2 hb⟩

theorem buildFrom_invariant (sha256 : String → String) :
    ∀ (entries : List SignedEntry) (c : List Block) (secrets : List String),
      (∀ b ∈ c, calculateHash sha256 b = b.currentHash) →
      linkedSent "0" c →
      signedWith sha256 c secrets →
      (∀ b ∈ buildFrom sha256 c entries, calculateHash sha256 b = b.currentHash) ∧
      linkedSent "0" (buildFrom sha256 c entries) ∧
      signedWith sha256 (buildFrom sha256 c entries)
        (secrets ++ entries.map (fun e => e.userSecret)) := by
  intro entries
  induction entries with
  | nil =>
    intro c secrets hh hl hs
    simpa [buildFrom] using ⟨hh, hl, hs⟩
  | cons e es ih =>
    intro c secrets hh hl hs
    have hstep : buildFrom sha256 c (e :: es)
        = buildFrom sha256 (addBlock sha256 c e.record e.userSecret e.timestamp) es := rfl
    rw [hstep, addBlock_eq]
    have hh2 : ∀ b ∈ c ++ [mkBlock sha256 (lastHash "0" c) e.record e.userSecret e.timestamp],
        calculateHash sha256 b = b.currentHash := by
      intro b hb
      rcases List.mem_append.mp hb with hbc | hbm
      · exact hh b hbc
      · rw [List.mem_singleton.mp hbm]; exact mkBlock_hashOK sha256 _ _ _ _
    have hl2 : linkedSent "0"
        (c ++ [mkBlock sha256 (lastHash "0" c) e.record e.userSecret e.timestamp]) := by
      rw [linkedSent_append]
      exact ⟨hl, mkBlock_previousHash sha256 _ _ _ _, trivial⟩
    have hs2 : signedWith sha256
        (c ++ [mkBlock sha256 (lastHash "0" c) e.record e.userSecret e.timestamp])
        (secrets ++ [e.userSecret]) :=
      signedWith_append_one sha256 c secrets _ _ hs (mkBlock_sigOK sha256 _ _ _ _)
    have := ih _ (secrets ++ [e.userSecret]) hh2 hl2 hs2
    simpa [List.append_assoc] using this

theorem signedWith_const (sha256 : String → String) (s : String) :
    ∀ (c : List Block) (secs : List String),
      signedWith sha256 c secs → (∀ x ∈ secs, x = s) →
      ∀ b ∈ c, signRecord sha256 b s = b.signature := by
  intro c
  induction c with
  | nil => intro secs _ _ b hb; exact absurd hb (by simp)
  | cons b2 t ih =>
    intro secs hsw hall b hb
    cases secs with
    | nil => exact absurd hsw (by simp [signedWith])
    | cons x xs =>
      rcases List.mem_cons.mp hb with hbe | hbt
      · rw [hbe]
        have hx : x = s := hall x (by simp)
        rw [← hx]; exact hsw.1
      · exact ih xs hsw.2 (fun y hy => hall y (by simp [hy])) b hbt

/-- Every chain built purely via `addBlock` under one secret has correct
stored hashes, correct links from the `"0"` sentinel, and signatures keyed
by that secret. -/
theorem buildChain_invariant (sha256 : String → String) (s : String) (entries : List Entry) :
    (∀ b ∈ buildChain sha256 s entries, calculateHash sha256 b = b.currentHash) ∧
    linkedSent "0" (buildChain sha256 s entries) ∧
    (∀ b ∈ buildChain sha256 s entries, signRecord sha256 b s = b.signature) := by
  rw [buildChain_eq_buildFrom]
  have h := buildFrom_invariant sha256
    (entries.map (fun e => ⟨e.record, s, e.timestamp⟩)) [] []
    (by simp) trivial trivial
  refine ⟨h.1, h.2.1, ?_⟩
  apply signedWith_const sha256 s _ _ h.2.2
  intro x hx
  simp at hx
  exact hx.2.symm

theorem buildChain_length (sha256 : String → String) (s : String) (entries : List Entry) :
    (buildChain sha256 s entries).length = entries.length := by
  rw [buildChain_eq_buildFrom, buildFrom_length]; simp

theorem buildChainMulti_length (sha256 : String → String) (entries : List SignedEntry) :
    (buildChainMulti sha256 entries).length = entries.length := by
  rw [buildChainMulti_eq_buildFrom, buildFrom_length]; simp

/-! Consequences of hash injectivity for the two digest uses. -/

theorem string_append_cancel_left {a b c : String} (h : a ++ b = a ++ c) : b = c := by
  have hd := congrArg String.data h
  rw [String.data_append, String.data_append] at hd
  exact congrArg String.mk (List.append_cancel_left hd)

/-- `calculateHash` reads neither `signature` nor `currentHash`. -/
theorem calculateHash_set_signature (sha256 : String → String) (b : Block) (x : String) :
    calculateHash sha256 { b with signature := x } = calculateHash sha256 b := rfl

theorem calculateHash_set_currentHash (sha256 : String → String) (b : Block) (x : String) :
    calculateHash sha256 { b with currentHash := x } = calculateHash sha256 b := rfl

theorem calculateHash_set_previousHash_currentHash (sha256 : String → String) (b : Block)
    (p x : String) :
    calculateHash sha256 { b with previousHash := p, currentHash := x }
      = calculateHash sha256 { b with previousHash := p } := rfl

/-- `signRecord` reads neither `signature` nor `currentHash`. -/
theorem signRecord_set_signature (sha256 : String → String) (b : Block) (x s : String) :
    signRecord sha256 { b with signature := x } s = signRecord sha256 b s := rfl

/-- With an injective digest, different defaulted hash content yields
different chaining digests. -/
theorem calculateHash_ne (sha256 : String → String) (hInj : Function.Injective sha256)
    {b1 b2 : Block} (h : dataForHash b1 ≠ dataForHash b2) :
    calculateHash sha256 b1 ≠ calculateHash sha256 b2 := by
  intro he
  exact h (jsonStringifyData_inj (hInj he))

/-- With an injective digest, the same block signed under two different
secrets carries two different signatures. -/
theorem signRecord_secret_ne (sha256 : String → String) (hInj : Function.Injective sha256)
    (b : Block) {s1 s2 : String} (hne : s1 ≠ s2) :
    signRecord sha256 b s1 ≠ signRecord sha256 b s2 := by
  intro he
  exact hne (string_append_cancel_left (hInj he))

/-! Concrete demonstration inputs used to evaluate the parametric theorems. -/

theorem mockHash_injective : Function.Injective mockHash := by
  intro a b h
  exact string_append_cancel_left h

/-- Demonstration Register record. -/
def demoRecord1 : Record :=
  { propertyID := "P1", owner := "Alice", action := "Register",
    description := some "house", remarks := none }

/-- Demonstration Transfer record. -/
def demoRecord2 : Record :=
  { propertyID := "P1", owner := "Bob", action := "Transfer",
    description := none, remarks := some "sold" }

/-- Two demonstration append calls. -/
def demoEntries : List Entry :=
  [⟨demoRecord1, "2024-01-01T00:00:00.000Z"⟩, ⟨demoRecord2, "2024-01-02T00:00:00.000Z"⟩]

theorem linkedSent_get_zero :
    ∀ (c : List Block) (ph : String), linkedSent ph c →
      ∀ h0 : 0 < c.length, (c.get ⟨0, h0⟩).previousHash = ph := by
  intro c ph hls h0
  cases c with
  | nil => exact absurd h0 (by simp)
  | cons b t => exact hls.1

theorem linkedSent_get_succ :
    ∀ (c : List Block) (ph : String), linkedSent ph c →
      ∀ (i : Nat) (hi : i + 1 < c.length),
        (c.get ⟨i + 1, hi⟩).previousHash = (c.get ⟨i, Nat.lt_of_succ_lt hi⟩).currentHash := by
  intro c
  induction c with
  | nil => intro ph _ i hi; exact absurd hi (by simp)
  | cons b t ih =>
    intro ph hls i hi
    cases i with
    | zero =>
      show (t.get ⟨0, _⟩).previousHash = b.currentHash
      exact linkedSent_get_zero t b.currentHash hls.2 _
    | succ k =>
      show (t.get ⟨k + 1, _⟩).previousHash = (t.get ⟨k, _⟩).currentHash
      exact ih b.currentHash hls.2 k (by simpa using hi)

/-- C1.  Validator soundness: a chain built purely via `addBlock` with a
single secret validates as `valid` under that same secret. -/
theorem validator_soundness (sha256 : String → String) (userSecret : String)
    (entries : List Entry) (hne : entries ≠ []) :
    validateChain sha256 (buildChain sha256 userSecret entries) userSecret
      = ValidationResult.valid := by
  obtain ⟨hh, hl, hs⟩ := buildChain_invariant sha256 userSecret entries
  have hlen := buildChain_length sha256 userSecret entries
  rw [validateChain,
    if_neg (by rw [hlen]; exact fun h0 => hne (List.length_eq_zero.mp h0))]
  exact checkBlocks_valid sha256 userSecret _ none 0 hh hs
    (linkMatch_of_linkedSent _ "0" hl none (Or.inl rfl))

/-- Witness for C1 at a concrete two-block chain. -/
theorem validator_soundness_witness :
    validateChain mockHash (buildChain mockHash "s1" demoEntries) "s1"
      = ValidationResult.valid :=
  validator_soundness mockHash "s1" demoEntries (by decide)

/-- C2.  Chain linkage: on a chain built solely via `addBlock`, block 0 links
to the sentinel `"0"` and block `i+1` links to block `i`'s stored
`currentHash`. -/
theorem chain_linkage (sha256 : String → String) (userSecret : String) (entries : List Entry) :
    (∀ h0 : 0 < (buildChain sha256 userSecret entries).length,
      ((buildChain sha256 userSecret entries).get ⟨0, h0⟩).previousHash = "0") ∧
    (∀ (i : Nat) (hi : i + 1 < (buildChain sha256 userSecret entries).length),
      ((buildChain sha256 userSecret entries).get ⟨i + 1, hi⟩).previousHash
        = ((buildChain sha256 userSecret entries).get
            ⟨i, Nat.lt_of_succ_lt hi⟩).currentHash) := by
  obtain ⟨_, hl, _⟩ := buildChain_invariant sha256 userSecret entries
  exact ⟨linkedSent_get_zero _ "0" hl, linkedSent_get_succ _ "0" hl⟩

/-- Witness for C2 at a concrete two-block chain. -/
theorem chain_linkage_witness :
    ((buildChain mockHash "s1" demoEntries).get ⟨0, by decide⟩).previousHash = "0" ∧
    ((buildChain mockHash "s1" demoEntries).get ⟨1, by decide⟩).previousHash
      = ((buildChain mockHash "s1" demoEntries).get ⟨0, by decide⟩).currentHash := by
  have h := chain_linkage mockHash "s1" demoEntries
  exact ⟨h.1 (by decide), h.2 0 (by decide)⟩

/-- C10.  Append-only frame property: `addBlock`'s only effect on the chain
is appending one block at the tail, so every previously appended block is
preserved, positionally and field for field.  (`validateChain`,
`showTimeline` and `updateStats` are read-only projections of the chain in
this embedding.) -/
theorem append_only_frame (sha256 : String → String) (blockchain : List Block)
    (record : Record) (userSecret timestamp : String) :
    addBlock sha256 blockchain record userSecret timestamp
      = blockchain ++ [mkBlock sha256 (lastHash "0" blockchain) record userSecret timestamp] ∧
    (addBlock sha256 blockchain record userSecret timestamp).take blockchain.length
      = blockchain ∧
    (∀ i : Nat, i < blockchain.length →
      (addBlock sha256 blockchain record userSecret timestamp).get? i
        = blockchain.get? i) := by
  refine ⟨addBlock_eq sha256 blockchain record userSecret timestamp, ?_, ?_⟩
  · rw [addBlock_eq]; exact List.take_left blockchain _
  · intro i hi
    rw [addBlock_eq]
    exact List.get?_append hi

/-- Witness for C10 at a concrete chain. -/
theorem append_only_frame_witness :
    (addBlock mockHash (buildChain mockHash "s1" demoEntries) demoRecord1 "s9" "T9").get? 1
      = (buildChain mockHash "s1" demoEntries).get? 1 :=
  (append_only_frame mockHash (buildChain mockHash "s1" demoEntries)
    demoRecord1 "s9" "T9").2.2 1 (by decide)

/-! First-failure behaviour of the validator on a tampered chain. -/

theorem checkBlocks_cons_hashFail (sha256 : String → String) (s : String)
    (phOpt : Option String) (i : Nat) (b : Block) (rest : List Block)
    (h : calculateHash sha256 b ≠ b.currentHash) :
    checkBlocks sha256 s phOpt i (b :: rest) = ValidationResult.hashMismatch i := by
  rw [checkBlocks, if_pos h]

theorem checkBlocks_cons_linkFail (sha256 : String → String) (s : String)
    (phOpt : Option String) (i : Nat) (b : Block) (rest : List Block)
    (h1 : calculateHash sha256 b = b.currentHash)
    (h2 : linkBroken phOpt b = true) :
    checkBlocks sha256 s phOpt i (b :: rest) = ValidationResult.brokenLink i := by
  rw [checkBlocks, if_neg (fun hne => hne h1), h2]
  rfl

theorem checkBlocks_cons_sigFail (sha256 : String → String) (s : String)
    (phOpt : Option String) (i : Nat) (b : Block) (rest : List Block)
    (h1 : calculateHash sha256 b = b.currentHash)
    (h2 : linkBroken phOpt b = false)
    (h3 : signRecord sha256 b s ≠ b.signature) :
    checkBlocks sha256 s phOpt i (b :: rest) = ValidationResult.signatureInvalid i := by
  rw [checkBlocks, if_neg (fun hne => hne h1), h2]
  simp only [Bool.false_eq_true, if_false]
  rw [if_pos h3]

theorem tailH_none_cons (b : Block) (t : List Block) :
    tailH none (b :: t) = some (lastHash "0" (b :: t)) := by
  show tailH (some b.currentHash) t = _
  rw [tailH_some]
  rfl

theorem lastHash_getLast (c : List Block) (hne : c ≠ []) (d : String) :
    lastHash d c = (c.getLast hne).currentHash := by
  have h := getLastD_eq_lastHash c d
  rw [List.getLast?_eq_getLast c hne] at h
  exact h.symm

theorem linkBroken_tailH_false (c1 : List Block) (b : Block)
    (hb : b.previousHash = lastHash "0" c1) :
    linkBroken (tailH none c1) b = false := by
  cases c1 with
  | nil => rfl
  | cons x t => rw [tailH_none_cons]; simp [linkBroken, hb]

/-- Validation of a chain whose prefix `c1` passes all checks reduces to the
scan resuming at the block after the prefix. -/
theorem validate_split (sha256 : String → String) (s : String) (c1 : List Block)
    (b : Block) (c2 : List Block)
    (hh : ∀ x ∈ c1, calculateHash sha256 x = x.currentHash)
    (hs : ∀ x ∈ c1, signRecord sha256 x s = x.signature)
    (hl : linkedSent "0" c1) :
    validateChain sha256 (c1 ++ b :: c2) s
      = checkBlocks sha256 s (tailH none c1) c1.length (b :: c2) := by
  rw [validateChain,
    if_neg (by simp only [List.length_append, List.length_cons]; omega)]
  rw [checkBlocks_append sha256 s c1 none 0 (b :: c2) hh hs
    (linkMatch_of_linkedSent c1 "0" hl none (Or.inl rfl))]
  rw [Nat.zero_add]

theorem buildFrom_suffix (sha256 : String → String) :
    ∀ (entries : List SignedEntry) (c : List Block),
      ∃ tail, buildFrom sha256 c entries = c ++ tail := by
  intro entries
  induction entries with
  | nil => intro c; exact ⟨[], by simp [buildFrom]⟩
  | cons e es ih =>
    intro c
    obtain ⟨tail, htail⟩ := ih (addBlock sha256 c e.record e.userSecret e.timestamp)
    refine ⟨[mkBlock sha256 (lastHash "0" c) e.record e.userSecret e.timestamp] ++ tail, ?_⟩
    show buildFrom sha256 (addBlock sha256 c e.record e.userSecret e.timestamp) es = _
    rw [htail, addBlock_eq, List.append_assoc]

/-- First block of the demonstration chain. -/
def demoBlock0 : Block := (buildChain mockHash "s1" demoEntries).get ⟨0, by decide⟩

/-- Second block of the demonstration chain. -/
def demoBlock1 : Block := (buildChain mockHash "s1" demoEntries).get ⟨1, by decide⟩

/-- C3 counterexample: on a validly built chain, mutating the `signature`
field of block 0 (without recomputing digests) makes `validateChain` report
`signatureInvalid 0`, not `hashMismatch 0`, because the signature is not part
of the hashed content. -/
theorem hash_tamper_counterexample :
    validateChain mockHash ([] ++ { demoBlock0 with signature := "forged" } :: [demoBlock1]) "s1"
      = ValidationResult.signatureInvalid 0 ∧
    validateChain mockHash ([] ++ { demoBlock0 with signature := "forged" } :: [demoBlock1]) "s1"
      ≠ ValidationResult.hashMismatch 0 ∧
    { demoBlock0 with signature := "forged" } ≠ demoBlock0 ∧
    buildChain mockHash "s1" demoEntries = [] ++ demoBlock0 :: [demoBlock1] := by decide

/-- C3 (amended).  On a validly built single-secret chain, replacing block
`k` by a block whose defaulted hash content differs (stored digest kept), or
whose stored digest differs (hash content kept) — i.e. any single-field
mutation other than of the `signature` field that changes the hashed content
or the stored digest — makes `validateChain` report `hashMismatch` at `k`,
assuming an injective digest. -/
theorem hash_tamper_detected (sha256 : String → String) (hInj : Function.Injective sha256)
    (userSecret : String) (entries : List Entry) (c1 : List Block) (bk : Block)
    (c2 : List Block) (b2 : Block)
    (hchain : buildChain sha256 userSecret entries = c1 ++ bk :: c2)
    (hmut : (dataForHash b2 ≠ dataForHash bk ∧ b2.currentHash = bk.currentHash)
          ∨ (dataForHash b2 = dataForHash bk ∧ b2.currentHash ≠ bk.currentHash)) :
    validateChain sha256 (c1 ++ b2 :: c2) userSecret
      = ValidationResult.hashMismatch c1.length := by
  obtain ⟨hh, hl, hs⟩ := buildChain_invariant sha256 userSecret entries
  rw [hchain] at hh hl hs
  have hh1 : ∀ y ∈ c1, calculateHash sha256 y = y.currentHash :=
    fun y hy => hh y (by simp [hy])
  have hs1 : ∀ y ∈ c1, signRecord sha256 y userSecret = y.signature :=
    fun y hy => hs y (by simp [hy])
  have hl1 : linkedSent "0" c1 := (linkedSent_append.mp hl).1
  rw [validate_split sha256 userSecret c1 b2 c2 hh1 hs1 hl1]
  have hbk : calculateHash sha256 bk = bk.currentHash := hh bk (by simp)
  apply checkBlocks_cons_hashFail
  rcases hmut with ⟨hd, hc⟩ | ⟨hd, hc⟩
  · rw [hc, ← hbk]
    exact calculateHash_ne sha256 hInj hd
  · have heq : calculateHash sha256 b2 = bk.currentHash := by
      rw [calculateHash, hd]
      exact hbk
    rw [heq]
    exact fun hcc => hc hcc.symm

/-- Witness for C3 (amended): mutating block 0's `owner` field on the
demonstration chain is reported as `hashMismatch 0`. -/
theorem hash_tamper_detected_witness :
    validateChain mockHash ([] ++ { demoBlock0 with owner := "Mallory" } :: [demoBlock1]) "s1"
      = ValidationResult.hashMismatch 0 :=
  hash_tamper_detected mockHash mockHash_injective "s1" demoEntries [] demoBlock0 [demoBlock1]
    ({ demoBlock0 with owner := "Mallory" }) (by decide) (Or.inl ⟨by decide, rfl⟩)

/-- C4.  The chaining digest is independent of the `signature` field, and so
replacing only block `k`'s signature on a validly built chain passes the hash
check at `k` and is reported as `signatureInvalid k`, not `hashMismatch k`. -/
theorem signature_not_hashed (sha256 : String → String) (userSecret : String)
    (entries : List Entry) (c1 : List Block) (bk : Block) (c2 : List Block) (x : String)
    (hchain : buildChain sha256 userSecret entries = c1 ++ bk :: c2)
    (hx : x ≠ bk.signature) :
    (∀ (b : Block) (s2 : String),
      calculateHash sha256 { b with signature := s2 } = calculateHash sha256 b) ∧
    validateChain sha256 (c1 ++ { bk with signature := x } :: c2) userSecret
      = ValidationResult.signatureInvalid c1.length := by
  refine ⟨fun b s2 => rfl, ?_⟩
  obtain ⟨hh, hl, hs⟩ := buildChain_invariant sha256 userSecret entries
  rw [hchain] at hh hl hs
  have hh1 : ∀ y ∈ c1, calculateHash sha256 y = y.currentHash :=
    fun y hy => hh y (by simp [hy])
  have hs1 : ∀ y ∈ c1, signRecord sha256 y userSecret = y.signature :=
    fun y hy => hs y (by simp [hy])
  have hlsplit := linkedSent_append.mp hl
  rw [validate_split sha256 userSecret c1 _ c2 hh1 hs1 hlsplit.1]
  apply checkBlocks_cons_sigFail
  · show calculateHash sha256 { bk with signature := x } = bk.currentHash
    rw [calculateHash_set_signature]
    exact hh bk (by simp)
  · exact linkBroken_tailH_false c1 _ hlsplit.2.1
  · rw [signRecord_set_signature]
    show signRecord sha256 bk userSecret ≠ x
    rw [hs bk (by simp)]
    exact fun h => hx h.symm

/-- Witness for C4: replacing block 1's signature on the demonstration chain
is reported as `signatureInvalid 1`. -/
theorem signature_not_hashed_witness :
    validateChain mockHash ([demoBlock0] ++ { demoBlock1 with signature := "evil" } :: []) "s1"
      = ValidationResult.signatureInvalid 1 :=
  (signature_not_hashed mockHash "s1" demoEntries [demoBlock0] demoBlock1 [] "evil"
    (by decide) (by decide)).2

/-- The link-tampering operation of the spec: replace a block's
`previousHash` by `p` and recompute its `currentHash` so that the stored
digest stays self-consistent. -/
def relink (sha256 : String → String) (bk : Block) (p : String) : Block :=
  { bk with
      previousHash := p,
      currentHash := calculateHash sha256 { bk with previousHash := p } }

/-- C5.  Replacing block `k`'s `previousHash` (`k > 0`) with a value that
differs from the predecessor's stored digest, while recomputing
`currentHash` so the hash check still passes, is reported as `brokenLink` at
`k`; the scan halts there, reporting no later violation. -/
theorem link_tamper_detected (sha256 : String → String) (userSecret : String)
    (entries : List Entry) (c1 : List Block) (bk : Block) (c2 : List Block) (p : String)
    (hchain : buildChain sha256 userSecret entries = c1 ++ bk :: c2)
    (hne : c1 ≠ [])
    (hp : p ≠ (c1.getLast hne).currentHash) :
    validateChain sha256 (c1 ++ relink sha256 bk p :: c2) userSecret
      = ValidationResult.brokenLink c1.length := by
  obtain ⟨hh, hl, hs⟩ := buildChain_invariant sha256 userSecret entries
  rw [hchain] at hh hl hs
  have hh1 : ∀ y ∈ c1, calculateHash sha256 y = y.currentHash :=
    fun y hy => hh y (by simp [hy])
  have hs1 : ∀ y ∈ c1, signRecord sha256 y userSecret = y.signature :=
    fun y hy => hs y (by simp [hy])
  have hl1 : linkedSent "0" c1 := (linkedSent_append.mp hl).1
  rw [validate_split sha256 userSecret c1 _ c2 hh1 hs1 hl1]
  apply checkBlocks_cons_linkFail
  · rfl
  · cases c1 with
    | nil => exact absurd rfl hne
    | cons y t =>
      rw [tailH_none_cons]
      simp only [linkBroken, decide_eq_true_eq]
      rw [lastHash_getLast (y :: t) hne]
      exact hp

/-- Witness for C5: replacing block 1's `previousHash` by `"1"` (its hash
recomputed) on the demonstration chain is reported as `brokenLink 1`. -/
theorem link_tamper_detected_witness :
    validateChain mockHash ([demoBlock0] ++ relink mockHash demoBlock1 "1" :: []) "s1"
      = ValidationResult.brokenLink 1 :=
  link_tamper_detected mockHash "s1" demoEntries [demoBlock0] demoBlock1 [] "1"
    (by decide) (by decide) (by decide)

/-- C6.  Wrong-secret detection: validating with secret `s` a chain whose
first blocks were appended under `s` and whose next block was appended under
a different secret reports `signatureInvalid` at that block (hash and link
checks passing before it), assuming an injective digest. -/
theorem wrong_secret_detected (sha256 : String → String) (hInj : Function.Injective sha256)
    (s : String) (e1 : List SignedEntry) (ek : SignedEntry) (e2 : List SignedEntry)
    (hpre : ∀ e ∈ e1, e.userSecret = s)
    (hk : ek.userSecret ≠ s) :
    validateChain sha256 (buildChainMulti sha256 (e1 ++ ek :: e2)) s
      = ValidationResult.signatureInvalid e1.length := by
  obtain ⟨hh1, hl1, hsw1⟩ := buildFrom_invariant sha256 e1 [] [] (by simp) trivial trivial
  have hs1 : ∀ y ∈ buildFrom sha256 [] e1, signRecord sha256 y s = y.signature := by
    apply signedWith_const sha256 s _ _ hsw1
    intro x hx
    rw [List.nil_append] at hx
    obtain ⟨e, he, hxe⟩ := List.mem_map.mp hx
    rw [← hxe]
    exact hpre e he
  obtain ⟨tail, htail⟩ := buildFrom_suffix sha256 e2
    (addBlock sha256 (buildFrom sha256 [] e1) ek.record ek.userSecret ek.timestamp)
  have hchain : buildChainMulti sha256 (e1 ++ ek :: e2)
      = buildFrom sha256 [] e1
        ++ mkBlock sha256 (lastHash "0" (buildFrom sha256 [] e1))
            ek.record ek.userSecret ek.timestamp :: tail := by
    rw [buildChainMulti_eq_buildFrom]
    show (e1 ++ ek :: e2).foldl
        (fun ch e => addBlock sha256 ch e.record e.userSecret e.timestamp) [] = _
    rw [List.foldl_append]
    show buildFrom sha256
        (addBlock sha256 (buildFrom sha256 [] e1) ek.record ek.userSecret ek.timestamp) e2 = _
    rw [htail, addBlock_eq, List.append_assoc]
    rfl
  have hlen : (buildFrom sha256 [] e1).length = e1.length := by
    have := buildFrom_length sha256 e1 []
    simpa using this
  rw [hchain, validate_split sha256 s _ _ tail hh1 hs1 hl1, hlen]
  apply checkBlocks_cons_sigFail
  · exact mkBlock_hashOK sha256 _ _ _ _
  · exact linkBroken_tailH_false _ _ (mkBlock_previousHash sha256 _ _ _ _)
  · rw [← mkBlock_sigOK sha256 (lastHash "0" (buildFrom sha256 [] e1))
      ek.record ek.userSecret ek.timestamp]
    exact signRecord_secret_ne sha256 hInj _ (fun h => hk h.symm)

/-- Witness for C6: a two-block chain signed with `"s1"` then `"s2"`,
validated with `"s1"`, is reported as `signatureInvalid 1`. -/
theorem wrong_secret_detected_witness :
    validateChain mockHash
      (buildChainMulti mockHash
        ([⟨demoRecord1, "s1", "T1"⟩] ++ (⟨demoRecord2, "s2", "T2"⟩ : SignedEntry) :: []))
      "s1" = ValidationResult.signatureInvalid 1 :=
  wrong_secret_detected mockHash mockHash_injective "s1" [⟨demoRecord1, "s1", "T1"⟩]
    ⟨demoRecord2, "s2", "T2"⟩ [] (by decide) (by decide)

/-- C7.  Import atomicity: a payload that fails to parse is caught and
reported, a parsed non-array is rejected and reported, and in both failure
cases the in-memory chain is left exactly as it was; the chain is replaced
wholesale exactly when the parsed value is an array. -/
theorem import_atomicity (parsed : Option Json) (blockchain : List Json) :
    (parsed = none →
      loadLedgerFromFile parsed blockchain = (blockchain, ImportOutcome.readError)) ∧
    (∀ fields, parsed = some (Json.obj fields) →
      loadLedgerFromFile parsed blockchain = (blockchain, ImportOutcome.invalidFormat)) ∧
    ((∀ elems, parsed ≠ some (Json.arr elems)) →
      (loadLedgerFromFile parsed blockchain).1 = blockchain ∧
      (loadLedgerFromFile parsed blockchain).2 ≠ ImportOutcome.loaded) ∧
    (∀ elems, parsed = some (Json.arr elems) →
      loadLedgerFromFile parsed blockchain = (elems, ImportOutcome.loaded)) := by
  refine ⟨?_, ?_, ?_, ?_⟩
  · intro h; subst h; rfl
  · intro fields h; subst h; rfl
  · intro h
    cases parsed with
    | none => exact ⟨rfl, by simp [loadLedgerFromFile]⟩
    | some j =>
      cases j with
      | null => exact ⟨rfl, by simp [loadLedgerFromFile]⟩
      | bool b => exact ⟨rfl, by simp [loadLedgerFromFile]⟩
      | num n => exact ⟨rfl, by simp [loadLedgerFromFile]⟩
      | str str => exact ⟨rfl, by simp [loadLedgerFromFile]⟩
      | arr elems => exact absurd rfl (h elems)
      | obj fields => exact ⟨rfl, by simp [loadLedgerFromFile]⟩
  · intro elems h; subst h; rfl

/-- Witness for C7: a JSON object is rejected leaving the chain unchanged, a
parse failure is reported leaving the chain unchanged, and an array is
installed wholesale. -/
theorem import_atomicity_witness :
    loadLedgerFromFile (some (Json.obj [])) [] = ([], ImportOutcome.invalidFormat) ∧
    loadLedgerFromFile none [Json.null] = ([Json.null], ImportOutcome.readError) ∧
    loadLedgerFromFile (some (Json.arr [Json.null])) [] = ([Json.null], ImportOutcome.loaded) :=
  ⟨(import_atomicity (some (Json.obj [])) []).2.1 [] rfl,
   (import_atomicity none [Json.null]).1 rfl,
   (import_atomicity (some (Json.arr [Json.null])) []).2.2.2 [Json.null] rfl⟩

theorem jsonToBlock_blockToJson (b : Block) : jsonToBlock (blockToJson b) = some b := by
  cases b with
  | mk p o a d r ts ph sg ch => cases d <;> cases r <;> rfl

/-- C8.  Serialization round-trip: reading the exported JSON array back
yields a chain equal to the original in every field of every block and in
order; installing it via the importer succeeds with exactly the serialized
blocks. -/
theorem serialization_roundtrip (blockchain : List Block) (st : List Json) :
    jsonToChain (downloadLedger blockchain) = some blockchain ∧
    loadLedgerFromFile (some (downloadLedger blockchain)) st
      = (blockchain.map blockToJson, ImportOutcome.loaded) := by
  constructor
  · show (blockchain.map blockToJson).mapM jsonToBlock = some blockchain
    induction blockchain with
    | nil => rfl
    | cons b t ih =>
      rw [List.map_cons, List.mapM_cons, jsonToBlock_blockToJson, ih]
      rfl
  · rfl

/-- C9.  Digest determinism: blocks whose fields agree after defaulting the
optional `description`/`remarks` to the empty string get identical canonical
encodings and identical chaining digests, and the digest function is a
function of its input alone. -/
theorem digest_determinism (sha256 : String → String) (b1 b2 : Block)
    (h1 : b1.propertyID = b2.propertyID) (h2 : b1.owner = b2.owner)
    (h3 : b1.description.getD "" = b2.description.getD "")
    (h4 : b1.remarks.getD "" = b2.remarks.getD "")
    (h5 : b1.action = b2.action) (h6 : b1.timestamp = b2.timestamp)
    (h7 : b1.previousHash = b2.previousHash) :
    jsonStringifyData (dataForHash b1) = jsonStringifyData (dataForHash b2) ∧
    calculateHash sha256 b1 = calculateHash sha256 b2 ∧
    (∀ m1 m2 : String, m1 = m2 → sha256 m1 = sha256 m2) := by
  have hd : dataForHash b1 = dataForHash b2 := by
    simp [dataForHash, h1, h2, h3, h4, h5, h6, h7]
  exact ⟨congrArg jsonStringifyData hd,
    congrArg sha256 (congrArg jsonStringifyData hd),
    fun m1 m2 hm => congrArg sha256 hm⟩

/-- Witness for C9: a block with `description` present-but-empty and the
same block with `description` absent hash identically. -/
theorem digest_determinism_witness :
    calculateHash mockHash { demoBlock0 with description := some "" }
      = calculateHash mockHash { demoBlock0 with description := none } :=
  (digest_determinism mockHash ({ demoBlock0 with description := some "" })
    ({ demoBlock0 with description := none }) rfl rfl rfl rfl rfl rfl rfl).2.1
